import Mathlib

/-!
Verification of the caching / expansion / query engine of the
pinboard-bookmarks-mcp-server repository (`src/pinboard_mcp_server/client.py`,
with the data model from `src/pinboard_mcp_server/models.py`).

The Python `PinboardClient` is embedded shallowly:

* Machine state (`_bookmark_cache`, `_tag_cache`, `_last_update_time`,
  `_cache_valid_until`, `_has_expanded_data`, `_query_cache`) becomes the
  `ClientState` structure, threaded explicitly through every operation.
* The remote Pinboard API (the `pinboard.Pinboard` object, an external
  collaborator) is a parameter of type `Remote`: each endpoint is a function
  returning `Option` results, where `none` models the call (or the parsing of
  its result) raising an exception.
* `datetime` values are integers (seconds); `datetime.now()` is an explicit
  `now` parameter, constant within one operation; `timedelta(hours=1)` is
  `3600`, `timedelta(days=n)` is `n * 86400`.
* Every operation also returns the list of remote calls it issued (`RCall`),
  so that claims about which fetches happen are observable.
* A Python exception propagating out of an operation is modelled by the
  operation returning `none` as its result component, together with the state
  at the moment of the raise.
* Python `str.lower` / `str.split` / `in` (substring) / `sort` are modelled by
  structural Lean functions below that agree with CPython on the ASCII strings
  involved; `list.sort(key=..., reverse=True)` is a stable descending sort,
  modelled by a stable insertion sort.
* The `Bookmark.id` field (a freshly generated UUID, never inspected by the
  client logic) is not modelled.
* The `LRUCache(maxsize=1000)` query cache is an association list with
  insert-at-front semantics truncated to 1000 entries; lookups are pure.
  (cachetools' recency reordering on hits only affects which entry is evicted
  at capacity, which no claim depends on.)
-/

namespace Pinboard

/-- Python `str.lower` on one character (ASCII range; all strings in the
claims are ASCII, where CPython's `str.lower` acts exactly like this). -/
def pyCharLower (c : Char) : Char :=
  if 'A' ≤ c ∧ c ≤ 'Z' then Char.ofNat (c.toNat + 32) else c

/-- Python `str.lower`. -/
def pyLower (s : String) : String := ⟨s.data.map pyCharLower⟩

/-- `charsPfx n h` : the char list `n` is an initial segment of `h`. -/
def charsPfx : List Char → List Char → Bool
  | [], _ => true
  | _ :: _, [] => false
  | a :: as, b :: bs => a == b && charsPfx as bs

/-- `charsSub n h` : `n` occurs contiguously inside `h`. -/
def charsSub (needle : List Char) : List Char → Bool
  | [] => needle.isEmpty
  | c :: rest => charsPfx needle (c :: rest) || charsSub needle rest

/-- Python `needle in hay` for strings (substring containment). -/
def pyIn (needle hay : String) : Bool := charsSub needle.data hay.data

/-- `True` iff a Python string has a non-whitespace character, i.e.
`s.strip() != ""`. -/
def pyHasContent (s : String) : Bool :=
  s.data.any (fun c => decide (c ≠ ' ' ∧ c ≠ '\t' ∧ c ≠ '\n' ∧ c ≠ '\r'))

/-- Python `" ".join l`. -/
def joinSpace : List String → String
  | [] => ""
  | [t] => t
  | t :: u :: rest => t ++ " " ++ joinSpace (u :: rest)

/-- Worker for `pySplitWS`: accumulates the current word (reversed). -/
def wsSplitGo : List Char → List Char → List String
  | [], acc => if acc.isEmpty then [] else [⟨acc.reverse⟩]
  | c :: rest, acc =>
    if c = ' ' then
      if acc.isEmpty then wsSplitGo rest [] else (⟨acc.reverse⟩ : String) :: wsSplitGo rest []
    else wsSplitGo rest (c :: acc)

/-- Python `s.split()` (split on runs of spaces, dropping empty pieces; the
strings fed to it here are space-joined, so only `' '` occurs). -/
def pySplitWS (s : String) : List String := wsSplitGo s.data []

/-- Python `<` on strings (lexicographic by code point), as a `≤` test. -/
def charsLe : List Char → List Char → Bool
  | [], _ => true
  | _ :: _, [] => false
  | a :: as, b :: bs =>
    if a.toNat < b.toNat then true
    else if b.toNat < a.toNat then false
    else charsLe as bs

/-- The `Bookmark` model (`models.py`): `title` maps Pinboard's
`description`, `notes` maps `extended`; `saved_at` is an integer timestamp.
The opaque generated `id` is not modelled. -/
structure Bookmark where
  url : String
  title : String
  tags : List String
  notes : String
  savedAt : Int
  deriving Repr, DecidableEq

/-- The `TagCount` model (`models.py`). -/
structure TagCount where
  tag : String
  count : Nat
  deriving Repr, DecidableEq

/-- A raw post as handed over by the `pinboard` library
(`_convert_pinboard_bookmark`'s input: `url`, `description`, `extended`,
`tags` as a list, `time`). -/
structure Post where
  url : String
  description : String
  extended : String
  tags : List String
  time : Int
  deriving Repr, DecidableEq

/-- `_convert_pinboard_bookmark` followed by `Bookmark.from_pinboard`:
non-blank tags are joined with spaces and re-split on whitespace;
`description` becomes `title`, `extended` becomes `notes`.  The ISO
format/parse round trip on `time` is the identity here. -/
def convertPost (p : Post) : Bookmark :=
  { url := p.url
    title := p.description
    tags := pySplitWS (joinSpace (p.tags.filter pyHasContent))
    notes := p.extended
    savedAt := p.time }

/-- One remote call, as recorded in an operation's trace. -/
inductive RCall where
  /-- `posts.update()` -/
  | updateCall : RCall
  /-- `posts.recent(count=100)` -/
  | recentCall : RCall
  /-- `posts.all(fromdt=t)` (time-window fetch) -/
  | allFromCall (fromT : Int) : RCall
  /-- `posts.all(tag=tag, fromdt?, todt?)` (direct tag-filtered fetch) -/
  | allTagCall (tag : String) (fromT toT : Option Int) : RCall
  /-- `tags.get()` -/
  | tagsGetCall : RCall
  deriving Repr, DecidableEq

/-- The remote Pinboard service (external collaborator).  Each field models
one endpoint; `none` means the call raises (network failure, or its result
fails to parse). -/
structure Remote where
  /-- `posts.update()` → parsed `update_time` -/
  update : Option Int
  /-- `posts.recent(count=100)` → the `posts` list -/
  recent : Option (List Post)
  /-- `posts.all(fromdt=t)` -/
  allFrom : Int → Option (List Post)
  /-- `posts.all(tag=tag, fromdt?, todt?)` -/
  allTag : String → Option Int → Option Int → Option (List Post)
  /-- `tags.get()` -/
  tagsGet : Option (List TagCount)

/-- The mutable fields of `PinboardClient`. -/
structure ClientState where
  /-- `_bookmark_cache` (`None` before first population) -/
  bookmarkCache : Option (List Bookmark)
  /-- `_tag_cache` -/
  tagCache : Option (List TagCount)
  /-- `_last_update_time` -/
  lastUpdateTime : Option Int
  /-- `_cache_valid_until` -/
  cacheValidUntil : Option Int
  /-- `_has_expanded_data` -/
  hasExpandedData : Bool
  /-- `_query_cache` (LRU, maxsize 1000), most recent first -/
  queryCache : List (String × List Bookmark)
  deriving Repr, DecidableEq

/-- The state of a freshly constructed `PinboardClient`. -/
def freshState : ClientState :=
  { bookmarkCache := none, tagCache := none, lastUpdateTime := none
    cacheValidUntil := none, hasExpandedData := false, queryCache := [] }

/-- `key in cache` / `cache[key]` on the query cache. -/
def qcLookup (qc : List (String × List Bookmark)) (k : String) :
    Option (List Bookmark) :=
  (qc.find? (fun p => p.1 == k)).map (·.2)

/-- `cache[key] = value` on the LRU query cache (maxsize 1000): the new
entry goes to the front; a previous entry for the key is dropped; at
capacity the least recently used entry is evicted. -/
def qcInsert (qc : List (String × List Bookmark)) (k : String)
    (v : List Bookmark) : List (String × List Bookmark) :=
  ((k, v) :: qc.filter (fun p => !(p.1 == k))).take 1000

/-- Stable insertion (descending by `savedAt`) used by `sortDesc`. -/
def insertDesc (b : Bookmark) : List Bookmark → List Bookmark
  | [] => [b]
  | x :: xs => if x.savedAt ≤ b.savedAt then b :: x :: xs else x :: insertDesc b xs

/-- Python `matches.sort(key=lambda b: b.saved_at, reverse=True)`: a stable
sort, descending by `savedAt`. -/
def sortDesc : List Bookmark → List Bookmark
  | [] => []
  | b :: rest => insertDesc b (sortDesc rest)

/-- Stable insertion (ascending, code-point lexicographic) for `sortStrings`. -/
def insertAsc (t : String) : List String → List String
  | [] => [t]
  | x :: xs => if charsLe t.data x.data then t :: x :: xs else x :: insertAsc t xs

/-- Python `sorted(tags)` on strings. -/
def sortStrings : List String → List String
  | [] => []
  | t :: rest => insertAsc t (sortStrings rest)

/-- `_check_cache_validity` (client.py lines 78-103).  Returns the boolean
verdict, the updated state, and the remote calls issued.  Never raises: a
failing `posts.update()` call (or unparseable `update_time`) yields `false`
with the state unchanged. -/
def checkCacheValidity (rm : Remote) (now : Int) (s : ClientState) :
    Bool × ClientState × List RCall :=
  match s.cacheValidUntil with
  | some vu =>
    if now < vu then (true, s, [])
    else
      match rm.update with
      | none => (false, s, [RCall.updateCall])
      | some lastUpdate =>
        match s.lastUpdateTime with
        | some lu =>
          if lastUpdate ≤ lu then
            (true, { s with cacheValidUntil := some (now + 3600) }, [RCall.updateCall])
          else
            (false, { s with lastUpdateTime := some lastUpdate }, [RCall.updateCall])
        | none => (false, { s with lastUpdateTime := some lastUpdate }, [RCall.updateCall])
  | none =>
    match rm.update with
    | none => (false, s, [RCall.updateCall])
    | some lastUpdate =>
      match s.lastUpdateTime with
      | some lu =>
        if lastUpdate ≤ lu then
          (true, { s with cacheValidUntil := some (now + 3600) }, [RCall.updateCall])
        else
          (false, { s with lastUpdateTime := some lastUpdate }, [RCall.updateCall])
      | none => (false, { s with lastUpdateTime := some lastUpdate }, [RCall.updateCall])

/-- `_refresh_bookmark_cache` (client.py lines 105-147).  `none` in the
first component models the remote fetch raising (state then unchanged).
Narrow (`expandSearch = false`) uses `posts.recent(count=100)`; expanded
uses `posts.all(fromdt = now - 180 days)`.  Both replace the snapshot
wholesale, reset the validity window to +1 hour, and record the strategy in
`hasExpandedData`. -/
def refreshBookmarkCache (rm : Remote) (now : Int) (expandSearch : Bool)
    (s : ClientState) : Option ClientState × List RCall :=
  if expandSearch then
    match rm.allFrom (now - 180 * 86400) with
    | none => (none, [RCall.allFromCall (now - 180 * 86400)])
    | some posts =>
      (some { s with bookmarkCache := some (posts.map convertPost)
                     cacheValidUntil := some (now + 3600)
                     hasExpandedData := true },
       [RCall.allFromCall (now - 180 * 86400)])
  else
    match rm.recent with
    | none => (none, [RCall.recentCall])
    | some posts =>
      (some { s with bookmarkCache := some (posts.map convertPost)
                     cacheValidUntil := some (now + 3600)
                     hasExpandedData := false },
       [RCall.recentCall])

/-- `_search_by_tag_direct` (client.py lines 149-183).  Appends converted
posts from a tag-filtered `posts.all` fetch to `matches`, stopping before
`matches` would exceed `limit`.  `none` models the remote call raising
(the caller decides whether to swallow it).  No client state is touched. -/
def searchByTagDirect (rm : Remote) (tag : String) (found : List Bookmark)
    (fromD toD : Option Int) (limit : Nat) :
    Option (List Bookmark) × List RCall :=
  match rm.allTag tag fromD toD with
  | none => (none, [RCall.allTagCall tag fromD toD])
  | some posts =>
    (some (found ++ (posts.take (limit - found.length)).map convertPost),
     [RCall.allTagCall tag fromD toD])

/-- `_refresh_tag_cache` (client.py lines 185-195). -/
def refreshTagCache (rm : Remote) (s : ClientState) :
    Option ClientState × List RCall :=
  match rm.tagsGet with
  | none => (none, [RCall.tagsGetCall])
  | some tcs => (some { s with tagCache := some tcs }, [RCall.tagsGetCall])

/-- `get_all_bookmarks` (client.py lines 197-211): narrow refresh when the
validity check fails or the snapshot was never populated (`is None`), then
an expanded refresh when `expand_if_needed` holds and the snapshot is not
expanded; returns `self._bookmark_cache or []`. -/
def getAllBookmarks (rm : Remote) (now : Int) (expandIfNeeded : Bool)
    (s : ClientState) : Option (List Bookmark) × ClientState × List RCall :=
  match checkCacheValidity rm now s with
  | (valid, s1, t1) =>
    match
      (if !valid || s1.bookmarkCache.isNone then refreshBookmarkCache rm now false s1
       else (some s1, [])) with
    | (none, t2) => (none, s1, t1 ++ t2)
    | (some s2, t2) =>
      if expandIfNeeded && !s2.hasExpandedData then
        match refreshBookmarkCache rm now true s2 with
        | (none, t3) => (none, s2, t1 ++ t2 ++ t3)
        | (some s3, t3) => (some (s3.bookmarkCache.getD []), s3, t1 ++ t2 ++ t3)
      else (some (s2.bookmarkCache.getD []), s2, t1 ++ t2)

/-- `get_all_tags` (client.py lines 213-218): refresh only when the tag
cache was never populated; returns `self._tag_cache or []`. -/
def getAllTags (rm : Remote) (s : ClientState) :
    Option (List TagCount) × ClientState × List RCall :=
  match s.tagCache with
  | some tcs => (some tcs, s, [])
  | none =>
    match refreshTagCache rm s with
    | (none, t) => (none, s, t)
    | (some s1, t) => (some (s1.tagCache.getD []), s1, t)

/-- The substring match of `search_bookmarks` /
`search_bookmarks_extended`: lowercase query occurs in the lowercase title,
the lowercase notes, or some lowercase tag.  (`q` is already lowered.) -/
def matchesQuery (q : String) (b : Bookmark) : Bool :=
  pyIn q (pyLower b.title) || pyIn q (pyLower b.notes)
    || b.tags.any (fun t => pyIn q (pyLower t))

/-- The collection loop of `search_bookmarks` (lines 233-241 and 264-272):
append each matching bookmark, breaking once `len(matches) >= limit` right
after an append. -/
def collectGo (q : String) (limit : Nat) :
    List Bookmark → List Bookmark → List Bookmark
  | [], acc => acc
  | b :: rest, acc =>
    if matchesQuery q b then
      if limit ≤ acc.length + 1 then acc ++ [b]
      else collectGo q limit rest (acc ++ [b])
    else collectGo q limit rest acc

/-- The collection loop of `search_bookmarks_extended` (lines 327-337):
the `len(matches) >= limit` break is checked at the top of each iteration,
before converting the post. -/
def extGo (q : String) (limit : Nat) :
    List Post → List Bookmark → List Bookmark
  | [], acc => acc
  | p :: rest, acc =>
    if limit ≤ acc.length then acc
    else
      if matchesQuery q (convertPost p) then extGo q limit rest (acc ++ [convertPost p])
      else extGo q limit rest acc

/-- The cache key of `search_bookmarks`: `f"search:{query}:{limit}"`. -/
def searchKey (query : String) (limit : Nat) : String :=
  "search:" ++ query ++ ":" ++ toString limit

/-- The body of `search_bookmarks` after a cache miss (client.py lines
227-276).  `ql` is the lowered query (`query_lower`, line 229) and `key`
the cache key computed on line 223; everything after the cache check uses
the query only through these two. -/
def searchMiss (rm : Remote) (now : Int) (ql key : String) (limit : Nat)
    (s : ClientState) : Option (List Bookmark) × ClientState × List RCall :=
  match getAllBookmarks rm now false s with
  | (none, s1, t1) => (none, s1, t1)
  | (some bl, s1, t1) =>
    match collectGo ql limit bl [] with
    | b0 :: rest0 =>
      (some (b0 :: rest0),
       { s1 with queryCache := (qcInsert s1.queryCache key (b0 :: rest0)) },
       t1)
    | [] =>
      match getAllTags rm s1 with
      | (none, s2, t2) => (none, s2, t1 ++ t2)
      | (some tcs, s2, t2) =>
        match
          (match (tcs.find? (fun tc => pyLower tc.tag == ql)).map (·.tag) with
           | none => (([] : List Bookmark), ([] : List RCall))
           | some t =>
             match searchByTagDirect rm t [] none none limit with
             | (none, tr) => ([], tr)
             | (some m, tr) => (m, tr)) with
        | (matches1, t3) =>
          if matches1.isEmpty && !s2.hasExpandedData then
            match getAllBookmarks rm now true s2 with
            | (none, s3, t4) => (none, s3, t1 ++ t2 ++ t3 ++ t4)
            | (some bl2, s3, t4) =>
              (some (collectGo ql limit bl2 []),
               { s3 with queryCache :=
                   (qcInsert s3.queryCache key (collectGo ql limit bl2 [])) },
               t1 ++ t2 ++ t3 ++ t4)
          else
            (some matches1,
             { s2 with queryCache := (qcInsert s2.queryCache key matches1) },
             t1 ++ t2 ++ t3)

/-- `search_bookmarks` (client.py lines 220-276): answer from the query
cache when the key is present, otherwise run the miss body with the
lowered query and the raw-query cache key. -/
def searchBookmarks (rm : Remote) (now : Int) (query : String) (limit : Nat)
    (s : ClientState) : Option (List Bookmark) × ClientState × List RCall :=
  match qcLookup s.queryCache (searchKey query limit) with
  | some v => (some v, s, [])
  | none => searchMiss rm now (pyLower query) (searchKey query limit) limit s

/-- The cache key of `search_bookmarks_extended`:
`f"extended_search:{query}:{days_back}:{limit}"`. -/
def extKey (query : String) (daysBack limit : Nat) : String :=
  "extended_search:" ++ query ++ ":" ++ toString daysBack ++ ":" ++ toString limit

/-- `search_bookmarks_extended` (client.py lines 278-344). -/
def searchBookmarksExtended (rm : Remote) (now : Int) (query : String)
    (daysBack limit : Nat) (s : ClientState) :
    Option (List Bookmark) × ClientState × List RCall :=
  match qcLookup s.queryCache (extKey query daysBack limit) with
  | some v => (some v, s, [])
  | none =>
    match getAllTags rm s with
    | (none, s1, t1) => (none, s1, t1)
    | (some tcs, s1, t1) =>
      match
        (match (tcs.find? (fun tc => pyLower tc.tag == pyLower query)).map (·.tag) with
         | none => (([] : List Bookmark), ([] : List RCall))
         | some t =>
           match searchByTagDirect rm t [] none none limit with
           | (none, tr) => ([], tr)
           | (some m, tr) => (m, tr)) with
      | (matches0, t2) =>
        if matches0.isEmpty then
          match rm.allFrom (now - (daysBack : Int) * 86400) with
          | none =>
            (none, s1, t1 ++ t2 ++ [RCall.allFromCall (now - (daysBack : Int) * 86400)])
          | some posts =>
            (some (sortDesc (extGo (pyLower query) limit posts [])),
             { s1 with queryCache :=
                 (qcInsert s1.queryCache (extKey query daysBack limit)
                   (sortDesc (extGo (pyLower query) limit posts []))) },
             t1 ++ t2 ++ [RCall.allFromCall (now - (daysBack : Int) * 86400)])
        else
          (some (sortDesc matches0),
           { s1 with queryCache :=
               (qcInsert s1.queryCache (extKey query daysBack limit) (sortDesc matches0)) },
           t1 ++ t2)

/-- The cache key of `get_recent_bookmarks`: `f"recent:{days}:{limit}"`. -/
def recentKey (days limit : Nat) : String :=
  "recent:" ++ toString days ++ ":" ++ toString limit

/-- `get_recent_bookmarks` (client.py lines 346-367). -/
def getRecentBookmarks (rm : Remote) (now : Int) (days limit : Nat)
    (s : ClientState) : Option (List Bookmark) × ClientState × List RCall :=
  match qcLookup s.queryCache (recentKey days limit) with
  | some v => (some v, s, [])
  | none =>
    match getAllBookmarks rm now false s with
    | (none, s1, t1) => (none, s1, t1)
    | (some bl, s1, t1) =>
      (some ((sortDesc (bl.filter
           (fun b => decide (now - (days : Int) * 86400 ≤ b.savedAt)))).take limit),
       { s1 with queryCache :=
           (qcInsert s1.queryCache (recentKey days limit)
             ((sortDesc (bl.filter
                 (fun b => decide (now - (days : Int) * 86400 ≤ b.savedAt)))).take limit)) },
       t1)

/-- The tag-set match of `get_bookmarks_by_tags` (lines 383-390): the
lowercased requested tag set is a subset of the bookmark's lowercased tag
set. -/
def tagMatch (tags : List String) (b : Bookmark) : Bool :=
  tags.all (fun t => b.tags.any (fun bt => pyLower bt == pyLower t))

/-- The collection loop of `get_bookmarks_by_tags` (lines 386-400): tag-set
match, then the optional date bounds (`continue` on violation), then append
with a break once `len(matches) >= limit`. -/
def byTagsGo (tags : List String) (fromD toD : Option Int) (limit : Nat) :
    List Bookmark → List Bookmark → List Bookmark
  | [], acc => acc
  | b :: rest, acc =>
    if tagMatch tags b then
      if (match fromD with | some f => decide (b.savedAt < f) | none => false) then
        byTagsGo tags fromD toD limit rest acc
      else if (match toD with | some td => decide (td < b.savedAt) | none => false) then
        byTagsGo tags fromD toD limit rest acc
      else
        if limit ≤ acc.length + 1 then acc ++ [b]
        else byTagsGo tags fromD toD limit rest (acc ++ [b])
    else byTagsGo tags fromD toD limit rest acc

/-- `str(x)` for the optional datetime bounds in the by-tags cache key. -/
def optTimeStr : Option Int → String
  | none => "None"
  | some t => toString t

/-- The cache key of `get_bookmarks_by_tags`:
`f"tags:{':'.join(sorted(tags))}:{from_date}:{to_date}:{limit}"`. -/
def tagsKey (tags : List String) (fromD toD : Option Int) (limit : Nat) : String :=
  "tags:" ++ String.intercalate ":" (sortStrings tags) ++ ":" ++ optTimeStr fromD
    ++ ":" ++ optTimeStr toD ++ ":" ++ toString limit

/-- `get_bookmarks_by_tags` (client.py lines 369-418). -/
def getBookmarksByTags (rm : Remote) (now : Int) (tags : List String)
    (fromD toD : Option Int) (limit : Nat) (s : ClientState) :
    Option (List Bookmark) × ClientState × List RCall :=
  match qcLookup s.queryCache (tagsKey tags fromD toD limit) with
  | some v => (some v, s, [])
  | none =>
    match getAllBookmarks rm now false s with
    | (none, s1, t1) => (none, s1, t1)
    | (some bl, s1, t1) =>
      match
        (match byTagsGo tags fromD toD limit bl [], tags with
         | [], [t] =>
           (match searchByTagDirect rm t [] fromD toD limit with
            | (none, tr) => (([] : List Bookmark), tr)
            | (some m, tr) => (m, tr))
         | m0, _ => (m0, ([] : List RCall))) with
      | (matches1, t2) =>
        (some (sortDesc matches1),
         { s1 with queryCache :=
             (qcInsert s1.queryCache (tagsKey tags fromD toD limit) (sortDesc matches1)) },
         t1 ++ t2)

/-- One query operation of the public surface, for stating properties of
operation sequences. -/
inductive QOp where
  | search (query : String) (limit : Nat) : QOp
  | searchExt (query : String) (daysBack limit : Nat) : QOp
  | recent (days limit : Nat) : QOp
  | byTags (tags : List String) (fromD toD : Option Int) (limit : Nat) : QOp
  deriving Repr

/-- Dispatch one query operation. -/
def runOp (rm : Remote) (now : Int) (op : QOp) (s : ClientState) :
    Option (List Bookmark) × ClientState × List RCall :=
  match op with
  | QOp.search q limit => searchBookmarks rm now q limit s
  | QOp.searchExt q d limit => searchBookmarksExtended rm now q d limit s
  | QOp.recent d limit => getRecentBookmarks rm now d limit s
  | QOp.byTags tags f t limit => getBookmarksByTags rm now tags f t limit s

/-- Run a sequence of query operations (each with its own clock reading),
keeping only the final state. -/
def runSeq (rm : Remote) : List (Int × QOp) → ClientState → ClientState
  | [], s => s
  | (now, op) :: rest, s => runSeq rm rest (runOp rm now op s).2.1

/-- A bookmark sequence is non-increasing in saved time. -/
def SortedDesc (l : List Bookmark) : Prop :=
  l.Pairwise (fun a b => b.savedAt ≤ a.savedAt)

/-- `strHasPfx p s` : the string `s` starts with `p`. -/
def strHasPfx (p s : String) : Bool := charsPfx p.data s.data

/-- Entries of the query cache written by `search_bookmarks_extended` or
`get_bookmarks_by_tags` (recognised by their key shape) hold descending
result lists.  All reachable client states satisfy this; it is what makes
a cache hit in those two operations return a sorted list. -/
def QCInv (s : ClientState) : Prop :=
  ∀ e ∈ s.queryCache,
    (strHasPfx "extended_search:" e.1 = true ∨ strHasPfx "tags:" e.1 = true) →
    SortedDesc e.2

/-- The remote calls that fetch the underlying bookmark snapshot
(`posts.recent` and time-window `posts.all`). -/
def isSnapshotFetch : RCall → Bool
  | RCall.recentCall => true
  | RCall.allFromCall _ => true
  | _ => false

/-- Count of snapshot fetches in a trace. -/
def countSnapFetch (t : List RCall) : Nat := (t.filter isSnapshotFetch).length

/-- The time-window (`days_back` / expansion style) remote fetches. -/
def isTimeWindowFetch : RCall → Bool
  | RCall.allFromCall _ => true
  | _ => false

/-- An expanded snapshot whose validity stamp is `vu` (and which is
populated, as every refresh leaves it). -/
def ExpandedValid (vu : Int) (s : ClientState) : Prop :=
  s.hasExpandedData = true ∧ s.cacheValidUntil = some vu ∧
    s.bookmarkCache.isSome = true

/-! ### Concrete fixtures used by witnesses and counterexamples -/

/-- A healthy remote: every endpoint answers, with empty data. -/
def rmEmpty : Remote :=
  { update := some 100, recent := some [], allFrom := fun _ => some []
    allTag := fun _ _ _ => some [], tagsGet := some [] }

/-- A state with a valid-until stamp far in the future, an empty (but
populated) bookmark snapshot and a populated empty tag snapshot.
Reachable: a narrow refresh on an account with no recent posts, plus a tag
refresh, leaves exactly this shape. -/
def sValidEmpty : ClientState :=
  { bookmarkCache := some [], tagCache := some [], lastUpdateTime := some 50
    cacheValidUntil := some 100000, hasExpandedData := false, queryCache := [] }

/-- A remote whose tag snapshot holds the tag `"foo"`, whose direct
tag-filtered fetch answers with zero posts, and whose time-window fetch
answers (with zero posts). -/
def rmTagNoPosts : Remote :=
  { update := some 100, recent := some [], allFrom := fun _ => some []
    allTag := fun _ _ _ => some [], tagsGet := some [{ tag := "foo", count := 1 }] }

/-- `sValidEmpty` with the tag snapshot `[{tag := "foo", count := 1}]`. -/
def sTagFoo : ClientState :=
  { sValidEmpty with tagCache := some [{ tag := "foo", count := 1 }] }

/-- An expanded state whose validity window has lapsed (valid until 10),
facing `rmEmpty`, whose update marker (100) is newer than the recorded one
(50): the next validity check fails.  Reachable: an expanded refresh at a
time before 10 minus one hour, followed by a remote-side update. -/
def sExpandedStale : ClientState :=
  { bookmarkCache := some [], tagCache := some [], lastUpdateTime := some 50
    cacheValidUntil := some 10, hasExpandedData := true, queryCache := [] }

/-- A post carrying no tags at all. -/
def pNoTags : Post :=
  { url := "u", description := "d", extended := "", tags := [], time := 0 }

/-- The bookmark `pNoTags` converts to. -/
def bNoTags : Bookmark :=
  { url := "u", title := "d", tags := [], notes := "", savedAt := 0 }

/-- A remote whose direct tag-filtered fetch returns `pNoTags` — a post
that does not carry the requested tag — for every tag. -/
def rmBadTagFetch : Remote :=
  { update := some 100, recent := some [], allFrom := fun _ => some []
    allTag := fun _ _ _ => some [pNoTags], tagsGet := some [] }

/-- A bookmark whose title mentions Synology. -/
def bSyn : Bookmark :=
  { url := "x", title := "Synology NAS", tags := [], notes := "", savedAt := 5 }

/-- A valid, expanded state whose query cache holds a stale entry for
`search:SYNOLOGY:20` recorded against an earlier snapshot.  Reachable:
`search("SYNOLOGY", 20)` answered from a snapshot containing `bSyn`, after
which a staleness-invalidated refresh replaced the snapshot by `[]` and an
expansion ran. -/
def sStaleSyn : ClientState :=
  { bookmarkCache := some [], tagCache := some [], lastUpdateTime := some 50
    cacheValidUntil := some 100000, hasExpandedData := true
    queryCache := [(searchKey "SYNOLOGY" 20, [bSyn])] }

/-- A remote whose snapshot endpoints all raise. -/
def rmDown : Remote :=
  { update := none, recent := none, allFrom := fun _ => none
    allTag := fun _ _ _ => none, tagsGet := none }

/-- A remote with one `"python"`-tagged post available to every fetch. -/
def pPython : Post :=
  { url := "p", description := "Py", extended := "", tags := ["python"], time := 7 }

/-- The bookmark `pPython` converts to. -/
def bPython : Bookmark :=
  { url := "p", title := "Py", tags := ["python"], notes := "", savedAt := 7 }

/-- A remote answering every post fetch with `pPython` and knowing the tag
`"python"`. -/
def rmPython : Remote :=
  { update := some 100, recent := some [pPython], allFrom := fun _ => some [pPython]
    allTag := fun _ _ _ => some [pPython]
    tagsGet := some [{ tag := "python", count := 1 }] }

/-- Like `rmPython`, but the tag-filtered fetch honours its tag argument:
it returns `pPython` only when asked for `"python"`. -/
def rmPythonStrict : Remote :=
  { update := some 100, recent := some [pPython], allFrom := fun _ => some [pPython]
    allTag := fun t _ _ => if t = "python" then some [pPython] else some []
    tagsGet := some [{ tag := "python", count := 1 }] }

/-- Two untagged posts, older first. -/
def pOld : Post :=
  { url := "o", description := "old", extended := "", tags := [], time := 1 }

/-- See `pOld`. -/
def pNew : Post :=
  { url := "n", description := "new", extended := "", tags := [], time := 9 }

/-- A remote whose time-window fetch answers `[pOld, pNew]` — oldest
first, so the caller's descending sort is observable. -/
def rmTwoPosts : Remote :=
  { update := some 100, recent := some [pOld, pNew], allFrom := fun _ => some [pOld, pNew]
    allTag := fun _ _ _ => some [], tagsGet := some [] }

/-- The bookmark `pOld` converts to. -/
def bOld : Bookmark :=
  { url := "o", title := "old", tags := [], notes := "", savedAt := 1 }

/-- The bookmark `pNew` converts to. -/
def bNew : Bookmark :=
  { url := "n", title := "new", tags := [], notes := "", savedAt := 9 }

/-- An expanded snapshot state inside its validity window. -/
def sExpandedValid : ClientState :=
  { bookmarkCache := some [], tagCache := some [], lastUpdateTime := some 50
    cacheValidUntil := some 100000, hasExpandedData := true, queryCache := [] }

/-- `sValidEmpty` with the tag snapshot `[{tag := "python", count := 1}]`. -/
def sPythonTags : ClientState :=
  { sValidEmpty with tagCache := some [{ tag := "python", count := 1 }] }

/-! ### Supporting lemmas -/

theorem charsPfx_self_append (l r : List Char) : charsPfx l (l ++ r) = true := by
  induction l with
  | nil => rfl
  | cons a as ih => simp [charsPfx, ih]

theorem strHasPfx_self_append (p r : String) : strHasPfx p (p ++ r) = true := by
  simp only [strHasPfx, String.data_append]
  exact charsPfx_self_append p.data r.data

theorem mem_insertDesc {x b : Bookmark} {l : List Bookmark} :
    x ∈ insertDesc b l ↔ x = b ∨ x ∈ l := by
  induction l with
  | nil => simp [insertDesc]
  | cons y ys ih =>
    simp only [insertDesc]
    split
    · simp [List.mem_cons]
    · simp only [List.mem_cons, ih]
      tauto

theorem mem_sortDesc {x : Bookmark} {l : List Bookmark} :
    x ∈ sortDesc l ↔ x ∈ l := by
  induction l with
  | nil => simp [sortDesc]
  | cons y ys ih => simp [sortDesc, mem_insertDesc, ih]

theorem sortedDesc_insertDesc {b : Bookmark} {l : List Bookmark}
    (h : SortedDesc l) : SortedDesc (insertDesc b l) := by
  induction l with
  | nil => simp [insertDesc, SortedDesc]
  | cons y ys ih =>
    rcases List.pairwise_cons.mp h with ⟨hy, hys⟩
    by_cases hle : y.savedAt ≤ b.savedAt
    · simp only [insertDesc, if_pos hle]
      refine List.pairwise_cons.mpr ⟨?_, h⟩
      intro z hz
      rcases List.mem_cons.mp hz with rfl | hz
      · exact hle
      · exact le_trans (hy z hz) hle
    · simp only [insertDesc, if_neg hle]
      refine List.pairwise_cons.mpr ⟨?_, ih hys⟩
      intro z hz
      rcases mem_insertDesc.mp hz with rfl | hz
      · exact le_of_lt (lt_of_not_le hle)
      · exact hy z hz

theorem sortedDesc_sortDesc (l : List Bookmark) : SortedDesc (sortDesc l) := by
  induction l with
  | nil => simp [sortDesc, SortedDesc]
  | cons y ys ih => exact sortedDesc_insertDesc ih

theorem sortedDesc_take {l : List Bookmark} (h : SortedDesc l) (n : Nat) :
    SortedDesc (l.take n) :=
  List.Pairwise.sublist (List.take_sublist n l) h

theorem qcLookup_insert_self (qc : List (String × List Bookmark))
    (k : String) (v : List Bookmark) : qcLookup (qcInsert qc k v) k = some v := by
  have h1000 : (1000 : Nat) = 999 + 1 := rfl
  simp only [qcLookup, qcInsert, h1000, List.take_succ_cons]
  rw [List.find?_cons_of_pos]
  · rfl
  · simp

theorem qcLookup_insert_of_none {qc : List (String × List Bookmark)}
    {k' : String} (k : String) (v : List Bookmark)
    (h : qcLookup qc k' = none) (hne : k ≠ k') :
    qcLookup (qcInsert qc k v) k' = none := by
  have hf : List.find? (fun p => p.1 == k') qc = none := by
    cases hfind : List.find? (fun p => p.1 == k') qc with
    | none => rfl
    | some e => rw [qcLookup, hfind] at h; simp at h
  rw [List.find?_eq_none] at hf
  have hgoal : List.find? (fun p => p.1 == k') (qcInsert qc k v) = none := by
    rw [List.find?_eq_none]
    intro e he
    have h1000 : (1000 : Nat) = 999 + 1 := rfl
    rw [qcInsert, h1000, List.take_succ_cons] at he
    rcases List.mem_cons.mp he with rfl | he
    · simp [hne]
    · exact hf e (List.mem_of_mem_filter (List.take_subset _ _ he))
  rw [qcLookup, hgoal]
  rfl

theorem checkCacheValidity_state (rm : Remote) (now : Int) (s : ClientState) :
    (checkCacheValidity rm now s).2.1.bookmarkCache = s.bookmarkCache ∧
    (checkCacheValidity rm now s).2.1.hasExpandedData = s.hasExpandedData ∧
    (checkCacheValidity rm now s).2.1.tagCache = s.tagCache ∧
    (checkCacheValidity rm now s).2.1.queryCache = s.queryCache := by
  unfold checkCacheValidity
  repeat' split
  all_goals simp

theorem refreshBookmarkCache_some (rm : Remote) (now : Int) (e : Bool)
    (s s' : ClientState) (h : (refreshBookmarkCache rm now e s).1 = some s') :
    s'.queryCache = s.queryCache ∧ s'.tagCache = s.tagCache ∧
    s'.hasExpandedData = e ∧ s'.bookmarkCache.isSome = true ∧
    s'.cacheValidUntil = some (now + 3600) := by
  unfold refreshBookmarkCache at h
  split at h
  all_goals split at h
  all_goals simp_all
  all_goals (subst h; simp)

theorem getAllTags_state (rm : Remote) (s : ClientState) :
    (getAllTags rm s).2.1.queryCache = s.queryCache ∧
    (getAllTags rm s).2.1.bookmarkCache = s.bookmarkCache ∧
    (getAllTags rm s).2.1.hasExpandedData = s.hasExpandedData ∧
    (getAllTags rm s).2.1.cacheValidUntil = s.cacheValidUntil := by
  unfold getAllTags refreshTagCache
  cases htc : s.tagCache with
  | some tcs => simp [htc]
  | none =>
    cases htg : rm.tagsGet with
    | none => simp [htc, htg]
    | some tcs => simp [htc, htg]

theorem getAllBookmarks_queryCache (rm : Remote) (now : Int) (e : Bool)
    (s : ClientState) :
    (getAllBookmarks rm now e s).2.1.queryCache = s.queryCache := by
  unfold getAllBookmarks
  rcases hC : checkCacheValidity rm now s with ⟨valid, s1, t1⟩
  obtain ⟨-, -, -, hCq⟩ := checkCacheValidity_state rm now s
  rw [hC] at hCq
  dsimp only at hCq ⊢
  by_cases hcond : (!valid || s1.bookmarkCache.isNone) = true
  · rw [if_pos hcond]
    rcases hR : refreshBookmarkCache rm now false s1 with ⟨os2, t2⟩
    cases os2 with
    | none => simp [hCq]
    | some s2 =>
      obtain ⟨hq2, -, hhe2, -, -⟩ :=
        refreshBookmarkCache_some rm now false s1 s2 (by rw [hR])
      dsimp only
      by_cases hexp : (e && !s2.hasExpandedData) = true
      · rw [if_pos hexp]
        rcases hR2 : refreshBookmarkCache rm now true s2 with ⟨os3, t3⟩
        cases os3 with
        | none => simp [hq2, hCq]
        | some s3 =>
          obtain ⟨hq3, -, -, -, -⟩ :=
            refreshBookmarkCache_some rm now true s2 s3 (by rw [hR2])
          simp [hq3, hq2, hCq]
      · rw [if_neg hexp]
        simp [hq2, hCq]
  · rw [if_neg hcond]
    dsimp only
    by_cases hexp : (e && !s1.hasExpandedData) = true
    · rw [if_pos hexp]
      rcases hR2 : refreshBookmarkCache rm now true s1 with ⟨os3, t3⟩
      cases os3 with
      | none => simp [hCq]
      | some s3 =>
        obtain ⟨hq3, -, -, -, -⟩ :=
          refreshBookmarkCache_some rm now true s1 s3 (by rw [hR2])
        simp [hq3, hCq]
    · rw [if_neg hexp]
      simp [hCq]

theorem getAllBookmarks_valid_noop (rm : Remote) (now : Int) (e : Bool)
    (s : ClientState) (vu : Int) (bl : List Bookmark)
    (hvu : s.cacheValidUntil = some vu) (hnow : now < vu)
    (hbc : s.bookmarkCache = some bl)
    (hskip : e = false ∨ s.hasExpandedData = true) :
    getAllBookmarks rm now e s = (some bl, s, []) := by
  have hC : checkCacheValidity rm now s = (true, s, []) := by
    unfold checkCacheValidity
    rw [hvu]
    simp [hnow]
  unfold getAllBookmarks
  rw [hC]
  dsimp only
  rw [if_neg (by simp [hbc])]
  dsimp only
  have hexp : (e && !s.hasExpandedData) = false := by
    rcases hskip with rfl | hskip
    · simp
    · simp [hskip]
  rw [hexp]
  simp [hbc]

theorem checkCacheValidity_trace (rm : Remote) (now : Int) (s : ClientState) :
    (checkCacheValidity rm now s).2.2 = [] ∨
    (checkCacheValidity rm now s).2.2 = [RCall.updateCall] := by
  unfold checkCacheValidity
  repeat' split
  all_goals simp

theorem countSnapFetch_append (a b : List RCall) :
    countSnapFetch (a ++ b) = countSnapFetch a + countSnapFetch b := by
  simp [countSnapFetch, List.filter_append]

theorem getAllBookmarks_narrow_snapCount (rm : Remote) (now : Int)
    (s : ClientState) :
    countSnapFetch (getAllBookmarks rm now false s).2.2 ≤ 1 := by
  unfold getAllBookmarks
  rcases hC : checkCacheValidity rm now s with ⟨valid, s1, t1⟩
  have ht1 : countSnapFetch t1 = 0 := by
    rcases checkCacheValidity_trace rm now s with h | h <;>
      rw [hC] at h <;> simp at h <;> simp [h, countSnapFetch, isSnapshotFetch]
  dsimp only
  by_cases hcond : (!valid || s1.bookmarkCache.isNone) = true
  · rw [if_pos hcond]
    rcases hR : refreshBookmarkCache rm now false s1 with ⟨os2, t2⟩
    have ht2 : countSnapFetch t2 ≤ 1 := by
      unfold refreshBookmarkCache at hR
      simp only [Bool.false_eq_true, if_false] at hR
      cases hrec : rm.recent <;> rw [hrec] at hR <;>
        simp at hR <;> simp [← hR.2, countSnapFetch, isSnapshotFetch]
    cases os2 with
    | none => simpa [countSnapFetch_append, ht1] using ht2
    | some s2 =>
      dsimp only
      rw [if_neg (by simp)]
      simpa [countSnapFetch_append, ht1] using ht2
  · rw [if_neg hcond]
    dsimp only
    rw [if_neg (by simp)]
    simp [countSnapFetch_append, ht1]

theorem searchMiss_key_irrel (rm : Remote) (now : Int) (ql k1 k2 : String)
    (limit : Nat) (s : ClientState) :
    (searchMiss rm now ql k1 limit s).1 = (searchMiss rm now ql k2 limit s).1 := by
  unfold searchMiss
  repeat' split
  all_goals rfl

theorem qcLookup_mem {qc : List (String × List Bookmark)} {k : String}
    {v : List Bookmark} (h : qcLookup qc k = some v) :
    ∃ e, e ∈ qc ∧ e.1 = k ∧ e.2 = v := by
  unfold qcLookup at h
  cases hf : List.find? (fun p => p.1 == k) qc with
  | none => rw [hf] at h; exact Option.noConfusion h
  | some e =>
    rw [hf] at h
    have hm := List.mem_of_find?_eq_some hf
    have hp := List.find?_some hf
    injection h with h2
    refine ⟨e, hm, ?_, h2⟩
    simpa using hp

theorem searchMiss_queryCache (rm : Remote) (now : Int) (ql k : String)
    (limit : Nat) (s : ClientState) :
    ((searchMiss rm now ql k limit s).1 = none ∧
      (searchMiss rm now ql k limit s).2.1.queryCache = s.queryCache) ∨
    (∃ v, (searchMiss rm now ql k limit s).1 = some v ∧
      (searchMiss rm now ql k limit s).2.1.queryCache =
        qcInsert s.queryCache k v) := by
  unfold searchMiss
  rcases hG : getAllBookmarks rm now false s with ⟨r1, s1, t1⟩
  have hq1 : s1.queryCache = s.queryCache := by
    have := getAllBookmarks_queryCache rm now false s
    rwa [hG] at this
  cases r1 with
  | none => exact Or.inl ⟨rfl, hq1⟩
  | some bl =>
    dsimp only
    cases hcol : collectGo ql limit bl [] with
    | cons b0 rest0 => exact Or.inr ⟨b0 :: rest0, rfl, by simp [hq1]⟩
    | nil =>
      rcases hT : getAllTags rm s1 with ⟨r2, s2, t2⟩
      have hq2 : s2.queryCache = s1.queryCache := by
        have := (getAllTags_state rm s1).1
        rwa [hT] at this
      cases r2 with
      | none => exact Or.inl ⟨rfl, hq2.trans hq1⟩
      | some tcs =>
        dsimp only
        rcases hD :
          (match (tcs.find? (fun tc => pyLower tc.tag == ql)).map (·.tag) with
           | none => (([] : List Bookmark), ([] : List RCall))
           | some t =>
             match searchByTagDirect rm t [] none none limit with
             | (none, tr) => ([], tr)
             | (some m, tr) => (m, tr)) with ⟨matches1, t3⟩
        rw [hD]
        dsimp only
        by_cases hif : (matches1.isEmpty && !s2.hasExpandedData) = true
        · rw [if_pos hif]
          rcases hG2 : getAllBookmarks rm now true s2 with ⟨r3, s3, t4⟩
          have hq3 : s3.queryCache = s2.queryCache := by
            have := getAllBookmarks_queryCache rm now true s2
            rwa [hG2] at this
          cases r3 with
          | none => exact Or.inl ⟨rfl, (hq3.trans hq2).trans hq1⟩
          | some bl2 =>
            exact Or.inr ⟨collectGo ql limit bl2 [], rfl,
              by simp [hq3, hq2, hq1]⟩
        · rw [if_neg hif]
          exact Or.inr ⟨matches1, rfl, by simp [hq2, hq1]⟩

theorem searchBookmarks_fail_queryCache (rm : Remote) (now : Int) (q : String)
    (limit : Nat) (s : ClientState)
    (h : (searchBookmarks rm now q limit s).1 = none) :
    (searchBookmarks rm now q limit s).2.1.queryCache = s.queryCache := by
  unfold searchBookmarks at h ⊢
  cases hl : qcLookup s.queryCache (searchKey q limit) with
  | some v => rw [hl] at h
  | none =>
    rw [hl] at h
    dsimp only at h ⊢
    rcases searchMiss_queryCache rm now (pyLower q) (searchKey q limit) limit s with
      ⟨-, hq⟩ | ⟨v, hv, -⟩
    · exact hq
    · rw [hv] at h; exact Option.noConfusion h

theorem searchBookmarksExtended_fail_queryCache (rm : Remote) (now : Int)
    (q : String) (d limit : Nat) (s : ClientState)
    (h : (searchBookmarksExtended rm now q d limit s).1 = none) :
    (searchBookmarksExtended rm now q d limit s).2.1.queryCache = s.queryCache := by
  unfold searchBookmarksExtended at h ⊢
  cases hl : qcLookup s.queryCache (extKey q d limit) with
  | some v => rw [hl] at h
  | none =>
    rw [hl] at h
    dsimp only at h ⊢
    rcases hT : getAllTags rm s with ⟨r1, s1, t1⟩
    have hq1 : s1.queryCache = s.queryCache := by
      have := (getAllTags_state rm s).1
      rwa [hT] at this
    rw [hT] at h
    cases r1 with
    | none => dsimp only; exact hq1
    | some tcs =>
      dsimp only at h ⊢
      by_cases hif :
        ((match (tcs.find? (fun (tc : TagCount) => pyLower tc.tag == pyLower q)).map
            (fun (tc : TagCount) => tc.tag) with
          | none => (([] : List Bookmark), ([] : List RCall))
          | some t =>
            match searchByTagDirect rm t [] none none limit with
            | (none, tr) => ([], tr)
            | (some m, tr) => (m, tr)).1.isEmpty) = true
      · rw [if_pos hif] at h ⊢
        cases hA : rm.allFrom (now - (d : Int) * 86400) with
        | none => exact hq1
        | some posts => rw [hA] at h; exact Option.noConfusion h
      · rw [if_neg hif] at h; exact Option.noConfusion h

theorem getRecentBookmarks_fail_queryCache (rm : Remote) (now : Int)
    (days limit : Nat) (s : ClientState)
    (h : (getRecentBookmarks rm now days limit s).1 = none) :
    (getRecentBookmarks rm now days limit s).2.1.queryCache = s.queryCache := by
  unfold getRecentBookmarks at h ⊢
  cases hl : qcLookup s.queryCache (recentKey days limit) with
  | some v => rw [hl] at h
  | none =>
    rw [hl] at h
    dsimp only at h ⊢
    rcases hG : getAllBookmarks rm now false s with ⟨r1, s1, t1⟩
    have hq1 : s1.queryCache = s.queryCache := by
      have := getAllBookmarks_queryCache rm now false s
      rwa [hG] at this
    rw [hG] at h
    cases r1 with
    | none => dsimp only; exact hq1
    | some bl => dsimp only at h; exact Option.noConfusion h

theorem getBookmarksByTags_fail_queryCache (rm : Remote) (now : Int)
    (tags : List String) (fromD toD : Option Int) (limit : Nat) (s : ClientState)
    (h : (getBookmarksByTags rm now tags fromD toD limit s).1 = none) :
    (getBookmarksByTags rm now tags fromD toD limit s).2.1.queryCache =
      s.queryCache := by
  unfold getBookmarksByTags at h ⊢
  cases hl : qcLookup s.queryCache (tagsKey tags fromD toD limit) with
  | some v => rw [hl] at h
  | none =>
    rw [hl] at h
    dsimp only at h ⊢
    rcases hG : getAllBookmarks rm now false s with ⟨r1, s1, t1⟩
    have hq1 : s1.queryCache = s.queryCache := by
      have := getAllBookmarks_queryCache rm now false s
      rwa [hG] at this
    rw [hG] at h
    cases r1 with
    | none => dsimp only; exact hq1
    | some bl => dsimp only at h; exact Option.noConfusion h

theorem refreshBookmarkCache_trace_narrow (rm : Remote) (now : Int)
    (s : ClientState) :
    (refreshBookmarkCache rm now false s).2 = [RCall.recentCall] := by
  unfold refreshBookmarkCache
  rw [if_neg (by simp)]
  cases rm.recent <;> rfl

theorem refreshBookmarkCache_trace_expand (rm : Remote) (now : Int)
    (s : ClientState) :
    (refreshBookmarkCache rm now true s).2 =
      [RCall.allFromCall (now - 180 * 86400)] := by
  unfold refreshBookmarkCache
  rw [if_pos rfl]
  cases rm.allFrom (now - 180 * 86400) <;> rfl

theorem expandedValid_of_fields {vu : Int} {s s' : ClientState}
    (h : ExpandedValid vu s) (h1 : s'.hasExpandedData = s.hasExpandedData)
    (h2 : s'.cacheValidUntil = s.cacheValidUntil)
    (h3 : s'.bookmarkCache = s.bookmarkCache) : ExpandedValid vu s' := by
  obtain ⟨he, hv, hb⟩ := h
  exact ⟨h1.trans he, h2.trans hv, h3 ▸ hb⟩

theorem searchMiss_expandedValid (rm : Remote) (now : Int) (ql k : String)
    (limit : Nat) (s : ClientState) (vu : Int)
    (hP : ExpandedValid vu s) (hnow : now < vu) :
    ExpandedValid vu (searchMiss rm now ql k limit s).2.1 := by
  obtain ⟨he, hv, hb⟩ := hP
  obtain ⟨bl, hbl⟩ := Option.isSome_iff_exists.mp hb
  unfold searchMiss
  rw [getAllBookmarks_valid_noop rm now false s vu bl hv hnow hbl (Or.inl rfl)]
  dsimp only
  cases hcol : collectGo ql limit bl [] with
  | cons b0 rest0 => exact ⟨he, hv, hb⟩
  | nil =>
    rcases hT : getAllTags rm s with ⟨r2, s2, t2⟩
    have hst := getAllTags_state rm s
    rw [hT] at hst
    obtain ⟨-, hb2, he2, hv2⟩ := hst
    have hP2 : ExpandedValid vu s2 :=
      expandedValid_of_fields ⟨he, hv, hb⟩ he2 hv2 hb2
    cases r2 with
    | none => exact hP2
    | some tcs =>
      dsimp only
      rcases hD :
        (match (tcs.find? (fun (tc : TagCount) => pyLower tc.tag == ql)).map
            (fun (tc : TagCount) => tc.tag) with
         | none => (([] : List Bookmark), ([] : List RCall))
         | some t =>
           match searchByTagDirect rm t [] none none limit with
           | (none, tr) => ([], tr)
           | (some m, tr) => (m, tr)) with ⟨matches1, t3⟩
      rw [hD]
      dsimp only
      rw [if_neg (by simp [hP2.1])]
      exact ⟨hP2.1, hP2.2.1, hP2.2.2⟩

theorem runOp_expandedValid (rm : Remote) (now : Int) (op : QOp)
    (s : ClientState) (vu : Int) (hP : ExpandedValid vu s) (hnow : now < vu) :
    ExpandedValid vu (runOp rm now op s).2.1 := by
  obtain ⟨he, hv, hb⟩ := hP
  obtain ⟨bl, hbl⟩ := Option.isSome_iff_exists.mp hb
  cases op with
  | search q limit =>
    unfold runOp searchBookmarks
    dsimp only
    cases hl : qcLookup s.queryCache (searchKey q limit) with
    | some v => exact ⟨he, hv, hb⟩
    | none =>
      dsimp only
      exact searchMiss_expandedValid rm now (pyLower q) (searchKey q limit) limit s vu ⟨he, hv, hb⟩ hnow
  | searchExt q d limit =>
    unfold runOp searchBookmarksExtended
    dsimp only
    cases hl : qcLookup s.queryCache (extKey q d limit) with
    | some v => exact ⟨he, hv, hb⟩
    | none =>
      dsimp only
      rcases hT : getAllTags rm s with ⟨r1, s1, t1⟩
      have hst := getAllTags_state rm s
      rw [hT] at hst
      obtain ⟨-, hb1, he1, hv1⟩ := hst
      have hP1 : ExpandedValid vu s1 :=
        expandedValid_of_fields ⟨he, hv, hb⟩ he1 hv1 hb1
      cases r1 with
      | none => exact hP1
      | some tcs =>
        dsimp only
        rcases hD :
          (match (tcs.find? (fun (tc : TagCount) => pyLower tc.tag == pyLower q)).map
              (fun (tc : TagCount) => tc.tag) with
           | none => (([] : List Bookmark), ([] : List RCall))
           | some t =>
             match searchByTagDirect rm t [] none none limit with
             | (none, tr) => ([], tr)
             | (some m, tr) => (m, tr)) with ⟨m0, t2⟩
        rw [hD]
        dsimp only
        by_cases hif : m0.isEmpty = true
        · rw [if_pos hif]
          cases hA : rm.allFrom (now - (d : Int) * 86400) with
          | none => exact hP1
          | some posts => exact ⟨hP1.1, hP1.2.1, hP1.2.2⟩
        · rw [if_neg hif]
          exact ⟨hP1.1, hP1.2.1, hP1.2.2⟩
  | recent d limit =>
    unfold runOp getRecentBookmarks
    dsimp only
    cases hl : qcLookup s.queryCache (recentKey d limit) with
    | some v => exact ⟨he, hv, hb⟩
    | none =>
      dsimp only
      rw [getAllBookmarks_valid_noop rm now false s vu bl hv hnow hbl (Or.inl rfl)]
      dsimp only
      exact ⟨he, hv, hb⟩
  | byTags tags f t limit =>
    unfold runOp getBookmarksByTags
    dsimp only
    cases hl : qcLookup s.queryCache (tagsKey tags f t limit) with
    | some v => exact ⟨he, hv, hb⟩
    | none =>
      dsimp only
      rw [getAllBookmarks_valid_noop rm now false s vu bl hv hnow hbl (Or.inl rfl)]
      dsimp only
      rcases hD :
        (match byTagsGo tags f t limit bl [], tags with
         | [], [tg] =>
           (match searchByTagDirect rm tg [] f t limit with
            | (none, tr) => (([] : List Bookmark), tr)
            | (some m, tr) => (m, tr))
         | m0, _ => (m0, ([] : List RCall))) with ⟨m1, t2⟩
      rw [hD]
      dsimp only
      exact ⟨he, hv, hb⟩

theorem runSeq_expandedValid (rm : Remote) (vu : Int) (seq : List (Int × QOp))
    (s : ClientState) (hseq : ∀ p ∈ seq, p.1 < vu) (hP : ExpandedValid vu s) :
    ExpandedValid vu (runSeq rm seq s) := by
  induction seq generalizing s with
  | nil => exact hP
  | cons p rest ih =>
    rcases p with ⟨now, op⟩
    exact ih (runOp rm now op s).2.1
      (fun q hq => hseq q (List.mem_cons_of_mem _ hq))
      (runOp_expandedValid rm now op s vu hP (hseq (now, op) (List.mem_cons_self _ _)))

/-! ### Claim theorems -/

/-- C8: whenever the validity window has lapsed (so the remote update-marker
probe is actually issued) and that probe fails, `_check_cache_validity`
returns `false` — forcing a refresh — with the state untouched, and never
propagates the error (its return type is a plain verdict, not an
exception). -/
theorem claim_C8 (rm : Remote) (now : Int) (s : ClientState)
    (hdue : ∀ vu, s.cacheValidUntil = some vu → vu ≤ now)
    (hfail : rm.update = none) :
    checkCacheValidity rm now s = (false, s, [RCall.updateCall]) := by
  unfold checkCacheValidity
  cases hvu : s.cacheValidUntil with
  | none => rw [hfail]
  | some vu =>
    dsimp only
    rw [if_neg (not_lt.mpr (hdue vu hvu)), hfail]

/-- C8 witness: a fresh client whose remote update probe fails gets a
`false` verdict with no state change and no exception. -/
theorem claim_C8_witness :
    checkCacheValidity rmDown 0 freshState = (false, freshState, [RCall.updateCall]) :=
  claim_C8 rmDown 0 freshState (fun vu h => by simp [freshState] at h) rfl

/-- C2 counterexample: from an expanded snapshot whose validity window has
lapsed and whose remote update marker has advanced, a plain `recent` query
(a later query operation) performs a staleness-invalidated narrow refresh
and resets `is_expanded` to `false` — the claimed terminality fails because
staleness invalidation IS implemented. -/
theorem claim_C2_counterexample :
    sExpandedStale.hasExpandedData = true ∧
    (getRecentBookmarks rmEmpty 20 7 20 sExpandedStale).2.1.hasExpandedData = false := by
  decide

/-- C2 (amended): once the snapshot is expanded, it stays expanded across
every sequence of query operations as long as each operation runs inside
the snapshot's validity window (so no staleness-invalidated narrow refresh
happens); a failed validity check triggers a narrow refresh that resets it. -/
theorem claim_C2 (rm : Remote) (vu : Int) (seq : List (Int × QOp))
    (s : ClientState) (hP : ExpandedValid vu s)
    (hseq : ∀ p ∈ seq, p.1 < vu) :
    (runSeq rm seq s).hasExpandedData = true :=
  (runSeq_expandedValid rm vu seq s hseq hP).1

/-- C2 witness: three successive query operations inside the validity
window keep `is_expanded` true. -/
theorem claim_C2_witness :
    (runSeq rmEmpty
      [(0, QOp.recent 7 20), (1, QOp.search "q" 5),
       (2, QOp.byTags ["x"] none none 5)] sExpandedValid).hasExpandedData = true :=
  claim_C2 rmEmpty 100000
    [(0, QOp.recent 7 20), (1, QOp.search "q" 5), (2, QOp.byTags ["x"] none none 5)]
    sExpandedValid (by exact ⟨rfl, rfl, rfl⟩) (by decide)

/-- C3 counterexample: a populated-but-empty snapshot (`some []`) with a
valid timestamp triggers NO narrow refresh — `get_all_bookmarks` checks
`self._bookmark_cache is None`, not emptiness, so the claim's
"snapshot is empty ⟹ narrow refresh" fails.  (`sValidEmpty` is reachable:
a narrow refresh on an account with no recent posts.) -/
theorem claim_C3_counterexample :
    sValidEmpty.bookmarkCache = some [] ∧
    (checkCacheValidity rmEmpty 0 sValidEmpty).1 = true ∧
    (getAllBookmarks rmEmpty 0 false sValidEmpty).2.2 = [] := by
  decide

/-- C3 (amended): `get_all_bookmarks(expand_if_needed)` performs a narrow
refresh when the staleness check reports invalid OR the snapshot has never
been populated (is absent); a populated-but-empty snapshot does not by
itself trigger a refresh.  Additionally, when expansion is requested and
the snapshot is not yet expanded, an expanded refresh is performed before
returning (whenever the call returns at all). -/
theorem claim_C3 (rm : Remote) (now : Int) (expand : Bool) (s : ClientState) :
    (((checkCacheValidity rm now s).1 = false ∨ s.bookmarkCache = none) →
      RCall.recentCall ∈ (getAllBookmarks rm now expand s).2.2) ∧
    ((expand = true ∧ s.hasExpandedData = false ∧
        (getAllBookmarks rm now expand s).1.isSome = true) →
      RCall.allFromCall (now - 180 * 86400) ∈ (getAllBookmarks rm now expand s).2.2) := by
  unfold getAllBookmarks
  rcases hC : checkCacheValidity rm now s with ⟨valid, s1, t1⟩
  obtain ⟨hCb, hChe, -, -⟩ := checkCacheValidity_state rm now s
  rw [hC] at hCb hChe
  dsimp only at hCb hChe ⊢
  by_cases hcond : (!valid || s1.bookmarkCache.isNone) = true
  · rw [if_pos hcond]
    rcases hR : refreshBookmarkCache rm now false s1 with ⟨os2, t2⟩
    have ht2 : t2 = [RCall.recentCall] := by
      have := refreshBookmarkCache_trace_narrow rm now s1
      rw [hR] at this
      exact this
    cases os2 with
    | none =>
      refine ⟨fun _ => ?_, fun hpre => ?_⟩
      · simp [ht2]
      · simp at hpre
    | some s2 =>
      obtain ⟨-, -, hhe2, -, -⟩ :=
        refreshBookmarkCache_some rm now false s1 s2 (by rw [hR])
      dsimp only
      by_cases hexp : (expand && !s2.hasExpandedData) = true
      · rw [if_pos hexp]
        rcases hR2 : refreshBookmarkCache rm now true s2 with ⟨os3, t3⟩
        have ht3 : t3 = [RCall.allFromCall (now - 180 * 86400)] := by
          have := refreshBookmarkCache_trace_expand rm now s2
          rw [hR2] at this
          exact this
        cases os3 with
        | none =>
          refine ⟨fun _ => ?_, fun hpre => ?_⟩
          · simp [ht2]
          · simp at hpre
        | some s3 =>
          refine ⟨fun _ => ?_, fun _ => ?_⟩
          · simp [ht2]
          · simp [ht3]
      · rw [if_neg hexp]
        refine ⟨fun _ => ?_, fun hpre => ?_⟩
        · simp [ht2]
        · exact absurd (show (expand && !s2.hasExpandedData) = true by
            simp [hpre.1, hhe2]) hexp
  · rw [if_neg hcond]
    dsimp only
    have hvalid : valid = true := by
      cases hv : valid
      · rw [hv] at hcond; simp at hcond
      · rfl
    have hbc : s1.bookmarkCache.isNone = false := by
      cases hb : s1.bookmarkCache.isNone
      · rfl
      · rw [hvalid, hb] at hcond; simp at hcond
    by_cases hexp : (expand && !s1.hasExpandedData) = true
    · rw [if_pos hexp]
      rcases hR2 : refreshBookmarkCache rm now true s1 with ⟨os3, t3⟩
      have ht3 : t3 = [RCall.allFromCall (now - 180 * 86400)] := by
        have := refreshBookmarkCache_trace_expand rm now s1
        rw [hR2] at this
        exact this
      cases os3 with
      | none =>
        refine ⟨fun hpre => ?_, fun hpre => ?_⟩
        · rcases hpre with hf | hn
          · rw [hf] at hvalid; exact Bool.noConfusion hvalid
          · simp [hCb, hn] at hbc
        · simp at hpre
      | some s3 =>
        refine ⟨fun hpre => ?_, fun _ => ?_⟩
        · rcases hpre with hf | hn
          · rw [hf] at hvalid; exact Bool.noConfusion hvalid
          · simp [hCb, hn] at hbc
        · simp [ht3]
    · rw [if_neg hexp]
      refine ⟨fun hpre => ?_, fun hpre => ?_⟩
      · rcases hpre with hf | hn
        · rw [hf] at hvalid; exact Bool.noConfusion hvalid
        · simp [hCb, hn] at hbc
      · exact absurd (show (expand && !s1.hasExpandedData) = true by
          simp [hpre.1, hChe, hpre.2.1]) hexp

/-- C3 witness: on a fresh client (absent snapshot) asking for expansion,
both the narrow refresh and the expanded refresh are issued. -/
theorem claim_C3_witness :
    RCall.recentCall ∈ (getAllBookmarks rmEmpty 0 true freshState).2.2 ∧
    RCall.allFromCall (0 - 180 * 86400) ∈ (getAllBookmarks rmEmpty 0 true freshState).2.2 :=
  ⟨(claim_C3 rmEmpty 0 true freshState).1 (Or.inr rfl),
   (claim_C3 rmEmpty 0 true freshState).2 ⟨rfl, rfl, by decide⟩⟩

/-- C1 counterexample: the tag-count snapshot holds a tag case-insensitively
equal to the query (`foo`), the direct tag-filtered fetch succeeds with zero
posts, and `search_bookmarks_extended` then DOES issue the `days_back`
time-window fetch (`if not matches:` fires on an empty direct result) —
refuting "no time-window remote fetch is issued ... regardless of how many
results the direct tag fetch returns". -/
theorem claim_C1_counterexample :
    ((sTagFoo.tagCache.getD []).find?
        (fun tc => pyLower tc.tag == pyLower "foo")).isSome = true ∧
    (searchBookmarksExtended rmTagNoPosts 0 "foo" 365 100 sTagFoo).2.2.any
        isTimeWindowFetch = true := by
  decide

/-- C1 (amended): when the tag-count snapshot yields an exact
(case-insensitive) tag match and the direct tag-filtered fetch succeeds
with at least one post (and `limit ≥ 1`), `search_bookmarks_extended`
serves the call from the direct tag fetch exclusively: no time-window
(`days_back`) fetch appears in its trace, and on a cache miss its result is
exactly the (sorted) direct-fetch content.  If the direct fetch fails or
returns zero results, the time-window fetch is issued instead. -/
theorem claim_C1 (rm : Remote) (now : Int) (q : String) (daysBack limit : Nat)
    (s : ClientState) (tcs : List TagCount) (tc0 : TagCount) (posts : List Post)
    (hTC : s.tagCache = some tcs)
    (hFind : tcs.find? (fun tc => pyLower tc.tag == pyLower q) = some tc0)
    (hTag : rm.allTag tc0.tag none none = some posts)
    (hNE : posts ≠ []) (hLim : 1 ≤ limit) :
    (searchBookmarksExtended rm now q daysBack limit s).2.2.any
        isTimeWindowFetch = false ∧
    (qcLookup s.queryCache (extKey q daysBack limit) = none →
      (searchBookmarksExtended rm now q daysBack limit s).1 =
        some (sortDesc ((posts.take limit).map convertPost))) := by
  have hGT : getAllTags rm s = (some tcs, s, []) := by
    unfold getAllTags
    rw [hTC]
  have hSD : searchByTagDirect rm tc0.tag [] none none limit =
      (some ((posts.take limit).map convertPost),
       [RCall.allTagCall tc0.tag none none]) := by
    unfold searchByTagDirect
    rw [hTag]
    simp
  unfold searchBookmarksExtended
  cases hl : qcLookup s.queryCache (extKey q daysBack limit) with
  | some v =>
    refine ⟨rfl, fun hcontra => ?_⟩
    exact Option.noConfusion hcontra
  | none =>
    rw [hGT]
    dsimp only
    rw [hFind]
    dsimp only [Option.map]
    rw [hSD]
    dsimp only
    rw [if_neg (by simp; exact ⟨by omega, hNE⟩)]
    refine ⟨?_, fun _ => rfl⟩
    simp [isTimeWindowFetch]

/-- C1 witness: with tag `python` in the tag snapshot and one post behind
the direct tag fetch, the extended search issues no time-window fetch and
returns exactly that bookmark. -/
theorem claim_C1_witness :
    (searchBookmarksExtended rmPython 0 "python" 365 5 sPythonTags).2.2.any
        isTimeWindowFetch = false ∧
    (searchBookmarksExtended rmPython 0 "python" 365 5 sPythonTags).1 =
      some [bPython] :=
  ⟨(claim_C1 rmPython 0 "python" 365 5 sPythonTags
      [{ tag := "python", count := 1 }] { tag := "python", count := 1 }
      [pPython] rfl (by decide) rfl (by decide) (by decide)).1,
   ((claim_C1 rmPython 0 "python" 365 5 sPythonTags
      [{ tag := "python", count := 1 }] { tag := "python", count := 1 }
      [pPython] rfl (by decide) rfl (by decide) (by decide)).2 rfl).trans (by decide)⟩

theorem byTagsGo_sound (tags : List String) (fromD toD : Option Int)
    (limit : Nat) (bl acc : List Bookmark)
    (hacc : ∀ b ∈ acc, tagMatch tags b = true) :
    ∀ b ∈ byTagsGo tags fromD toD limit bl acc, tagMatch tags b = true := by
  induction bl generalizing acc with
  | nil => simpa [byTagsGo] using hacc
  | cons x rest ih =>
    intro b hb
    simp only [byTagsGo] at hb
    by_cases hm : tagMatch tags x = true
    · rw [if_pos hm] at hb
      split at hb
      · exact ih acc hacc b hb
      · split at hb
        · exact ih acc hacc b hb
        · have hacc2 : ∀ b ∈ acc ++ [x], tagMatch tags b = true := by
            intro c hc
            rcases List.mem_append.mp hc with hc | hc
            · exact hacc c hc
            · rw [List.mem_singleton.mp hc]
              exact hm
          split at hb
          · exact hacc2 b hb
          · exact ih (acc ++ [x]) hacc2 b hb
    · rw [if_neg hm] at hb
      exact ih acc hacc b hb

/-- C4 counterexample: on the single-tag direct-fetch escalation path the
code appends whatever the remote returns without checking its tags, so a
remote whose tag-filtered fetch returns an untagged post makes
`get_bookmarks_by_tags(["python"])` return a bookmark whose tag set is NOT
a superset of the requested one. -/
theorem claim_C4_counterexample :
    (getBookmarksByTags rmBadTagFetch 0 ["python"] none none 20 sValidEmpty).1 =
      some [bNoTags] ∧
    tagMatch ["python"] bNoTags = false := by
  decide

/-- C4 (amended): every bookmark returned by a non-cache-hit
`get_bookmarks_by_tags` call has a lowercased tag set that is a superset of
the lowercased requested tag set — unconditionally on the narrow-snapshot
path, and on the single-tag direct-fetch escalation path provided every
post the remote returns for a tag query carries that tag
(case-insensitively); the code performs no local tag check on remotely
fetched posts. -/
theorem claim_C4 (rm : Remote) (now : Int) (tags : List String)
    (fromD toD : Option Int) (limit : Nat) (s : ClientState) (l : List Bookmark)
    (hMiss : qcLookup s.queryCache (tagsKey tags fromD toD limit) = none)
    (hRem : ∀ t f td posts, rm.allTag t f td = some posts →
      ∀ p ∈ posts, (convertPost p).tags.any
        (fun bt => pyLower bt == pyLower t) = true)
    (hRes : (getBookmarksByTags rm now tags fromD toD limit s).1 = some l) :
    ∀ b ∈ l, tagMatch tags b = true := by
  unfold getBookmarksByTags at hRes
  rw [hMiss] at hRes
  dsimp only at hRes
  rcases hG : getAllBookmarks rm now false s with ⟨r1, s1, t1⟩
  rw [hG] at hRes
  cases r1 with
  | none => exact Option.noConfusion hRes
  | some bl =>
    dsimp only at hRes
    cases hcol : byTagsGo tags fromD toD limit bl [] with
    | cons m0 ms =>
      rw [hcol] at hRes
      have hsound := byTagsGo_sound tags fromD toD limit bl [] (by simp)
      rw [hcol] at hsound
      dsimp only at hRes
      injection hRes with hRes
      intro b hb
      rw [← hRes] at hb
      exact hsound b (mem_sortDesc.mp hb)
    | nil =>
      rw [hcol] at hRes
      cases htags : tags with
      | nil =>
        subst htags
        dsimp only at hRes
        injection hRes with hRes
        intro b hb
        simp [tagMatch]
      | cons tg trest =>
        cases trest with
        | cons tg2 trest2 =>
          subst htags
          dsimp only at hRes
          injection hRes with hRes
          intro b hb
          rw [← hRes] at hb
          rw [mem_sortDesc] at hb
          simp [sortDesc] at hb
        | nil =>
          subst htags
          dsimp only at hRes
          cases hA : rm.allTag tg fromD toD with
          | none =>
            rw [searchByTagDirect, hA] at hRes
            dsimp only at hRes
            injection hRes with hRes
            intro b hb
            rw [← hRes] at hb
            rw [mem_sortDesc] at hb
            simp at hb
          | some posts =>
            rw [searchByTagDirect, hA] at hRes
            dsimp only at hRes
            injection hRes with hRes
            intro b hb
            rw [← hRes] at hb
            rw [mem_sortDesc] at hb
            simp only [List.nil_append] at hb
            obtain ⟨p, hp, hpb⟩ := List.mem_map.mp hb
            have hpmem : p ∈ posts := List.take_subset _ _ hp
            have hany := hRem tg fromD toD posts hA p hpmem
            simp only [tagMatch, List.all_cons, List.all_nil, Bool.and_true]
            rw [← hpb]
            exact hany

/-- C4 witness: a tag-honouring remote on the escalation path returns only
bookmarks carrying the requested tag. -/
theorem claim_C4_witness : tagMatch ["python"] bPython = true :=
  claim_C4 rmPythonStrict 0 ["python"] none none 5 sValidEmpty [bPython] (by decide)
    (by
      intro t f td posts hp p hpmem
      by_cases ht : t = "python"
      · rw [ht] at hp ⊢
        rw [show rmPythonStrict.allTag "python" f td = some [pPython] from by
          simp [rmPythonStrict]] at hp
        injection hp with hp
        rw [← hp] at hpmem
        rw [List.mem_singleton.mp hpmem]
        decide
      · rw [show rmPythonStrict.allTag t f td = some [] from by
          simp [rmPythonStrict, ht]] at hp
        injection hp with hp
        rw [← hp] at hpmem
        simp at hpmem)
    (by decide) bPython (by decide)

theorem strHasPfx_data (p s : String) (r : List Char) (h : s.data = p.data ++ r) :
    strHasPfx p s = true := by
  rw [strHasPfx, h]
  exact charsPfx_self_append _ _

theorem extKey_hasPfx (q : String) (d l : Nat) :
    strHasPfx "extended_search:" (extKey q d l) = true :=
  strHasPfx_data _ _
    (q.data ++ ":".data ++ (toString d).data ++ ":".data ++ (toString l).data)
    (by simp [extKey, String.data_append])

theorem tagsKey_hasPfx (tags : List String) (fromD toD : Option Int) (l : Nat) :
    strHasPfx "tags:" (tagsKey tags fromD toD l) = true :=
  strHasPfx_data _ _
    ((String.intercalate ":" (sortStrings tags)).data ++ ":".data
      ++ (optTimeStr fromD).data ++ ":".data ++ (optTimeStr toD).data
      ++ ":".data ++ (toString l).data)
    (by simp [tagsKey, String.data_append])

/-- C5: results of `search_bookmarks_extended` and `get_bookmarks_by_tags`
are non-increasing in saved time, on every fetch/escalation path: a cache
miss ends in an explicit descending sort, and a cache hit returns an entry
that (by the invariant `QCInv`, which holds in every reachable state) was
itself stored sorted by one of these two operations. -/
theorem claim_C5 (rm : Remote) (now : Int) (q : String) (daysBack limit1 : Nat)
    (tags : List String) (fromD toD : Option Int) (limit2 : Nat)
    (s : ClientState) (hInv : QCInv s) :
    (∀ l, (searchBookmarksExtended rm now q daysBack limit1 s).1 = some l →
      SortedDesc l) ∧
    (∀ l, (getBookmarksByTags rm now tags fromD toD limit2 s).1 = some l →
      SortedDesc l) := by
  constructor
  · intro l hl
    unfold searchBookmarksExtended at hl
    cases hq : qcLookup s.queryCache (extKey q daysBack limit1) with
    | some v =>
      rw [hq] at hl
      injection hl with hl
      obtain ⟨e, hmem, hk, hv⟩ := qcLookup_mem hq
      rw [← hl, ← hv]
      exact hInv e hmem (Or.inl (hk ▸ extKey_hasPfx q daysBack limit1))
    | none =>
      rw [hq] at hl
      dsimp only at hl
      rcases hT : getAllTags rm s with ⟨r1, s1, t1⟩
      rw [hT] at hl
      cases r1 with
      | none => exact Option.noConfusion hl
      | some tcs =>
        dsimp only at hl
        by_cases hif :
          ((match (tcs.find? (fun (tc : TagCount) => pyLower tc.tag == pyLower q)).map
              (fun (tc : TagCount) => tc.tag) with
            | none => (([] : List Bookmark), ([] : List RCall))
            | some t =>
              match searchByTagDirect rm t [] none none limit1 with
              | (none, tr) => ([], tr)
              | (some m, tr) => (m, tr)).1.isEmpty) = true
        · rw [if_pos hif] at hl
          cases hA : rm.allFrom (now - (daysBack : Int) * 86400) with
          | none => rw [hA] at hl; exact Option.noConfusion hl
          | some posts =>
            rw [hA] at hl
            injection hl with hl
            rw [← hl]
            exact sortedDesc_sortDesc _
        · rw [if_neg hif] at hl
          injection hl with hl
          rw [← hl]
          exact sortedDesc_sortDesc _
  · intro l hl
    unfold getBookmarksByTags at hl
    cases hq : qcLookup s.queryCache (tagsKey tags fromD toD limit2) with
    | some v =>
      rw [hq] at hl
      injection hl with hl
      obtain ⟨e, hmem, hk, hv⟩ := qcLookup_mem hq
      rw [← hl, ← hv]
      exact hInv e hmem (Or.inr (hk ▸ tagsKey_hasPfx tags fromD toD limit2))
    | none =>
      rw [hq] at hl
      dsimp only at hl
      rcases hG : getAllBookmarks rm now false s with ⟨r1, s1, t1⟩
      rw [hG] at hl
      cases r1 with
      | none => exact Option.noConfusion hl
      | some bl =>
        dsimp only at hl
        injection hl with hl
        rw [← hl]
        exact sortedDesc_sortDesc _

/-- C5 witness: an extended search whose time-window fetch returns posts
oldest-first hands back a descending list, and a by-tags escalation result
is likewise descending. -/
theorem claim_C5_witness : SortedDesc [bNew, bOld] ∧ SortedDesc [bPython] :=
  ⟨(claim_C5 rmTwoPosts 0 "" 365 5 [] none none 5 sValidEmpty
      (fun e he => by simp [sValidEmpty] at he)).1 [bNew, bOld] (by decide),
   (claim_C5 rmPythonStrict 0 "" 365 5 ["python"] none none 5 sValidEmpty
      (fun e he => by simp [sValidEmpty] at he)).2 [bPython] (by decide)⟩

/-- C6: calling `get_recent_bookmarks` twice in succession (any two clock
readings, no remote change in between) yields the identical result
sequence; the second call issues no remote calls at all (it is served from
the query cache), and the pair issues at most one snapshot fetch, all of it
in the first call. -/
theorem claim_C6 (rm : Remote) (n1 n2 : Int) (days limit : Nat)
    (s : ClientState) (l : List Bookmark)
    (hSucc : (getRecentBookmarks rm n1 days limit s).1 = some l) :
    (getRecentBookmarks rm n2 days limit
        (getRecentBookmarks rm n1 days limit s).2.1).1 = some l ∧
    (getRecentBookmarks rm n2 days limit
        (getRecentBookmarks rm n1 days limit s).2.1).2.2 = [] ∧
    countSnapFetch (getRecentBookmarks rm n1 days limit s).2.2 ≤ 1 := by
  have hcount : countSnapFetch (getRecentBookmarks rm n1 days limit s).2.2 ≤ 1 := by
    unfold getRecentBookmarks
    cases hl : qcLookup s.queryCache (recentKey days limit) with
    | some v => simp [countSnapFetch]
    | none =>
      dsimp only
      rcases hG : getAllBookmarks rm n1 false s with ⟨r1, s1, t1⟩
      have := getAllBookmarks_narrow_snapCount rm n1 s
      rw [hG] at this
      cases r1 with
      | none => exact this
      | some bl => exact this
  have hpair : (getRecentBookmarks rm n2 days limit
        (getRecentBookmarks rm n1 days limit s).2.1).1 = some l ∧
      (getRecentBookmarks rm n2 days limit
        (getRecentBookmarks rm n1 days limit s).2.1).2.2 = [] := by
    unfold getRecentBookmarks at hSucc ⊢
    cases hl : qcLookup s.queryCache (recentKey days limit) with
    | some v =>
      rw [hl] at hSucc
      dsimp only at hSucc ⊢
      rw [hl]
      exact ⟨hSucc, rfl⟩
    | none =>
      rw [hl] at hSucc
      dsimp only at hSucc ⊢
      rcases hG : getAllBookmarks rm n1 false s with ⟨r1, s1, t1⟩
      rw [hG] at hSucc
      cases r1 with
      | none => dsimp only at hSucc; exact Option.noConfusion hSucc
      | some bl =>
        dsimp only at hSucc ⊢
        rw [qcLookup_insert_self]
        dsimp only
        exact ⟨hSucc, rfl⟩
  exact ⟨hpair.1, hpair.2, hcount⟩

/-- C6 witness: two immediate `recent(7, 20)` calls on a fresh client
return the same single bookmark, the second call's trace is empty, and the
first call fetched the snapshot at most once. -/
theorem claim_C6_witness :
    (getRecentBookmarks rmPython 21 7 20
        (getRecentBookmarks rmPython 20 7 20 freshState).2.1).1 = some [bPython] ∧
    (getRecentBookmarks rmPython 21 7 20
        (getRecentBookmarks rmPython 20 7 20 freshState).2.1).2.2 = [] ∧
    countSnapFetch (getRecentBookmarks rmPython 20 7 20 freshState).2.2 ≤ 1 :=
  claim_C6 rmPython 20 21 7 20 freshState [bPython] (by decide)

/-- C7 counterexample: against the SAME snapshot and remote state, a stale
query-cache entry recorded for one spelling only (`search:SYNOLOGY:20`,
left over from before a snapshot refresh — the per-query cache is never
invalidated) makes `search("SYNOLOGY")` and `search("synology")` return
different sequences even though matching itself is case-insensitive. -/
theorem claim_C7_counterexample :
    pyLower "SYNOLOGY" = pyLower "synology" ∧
    (searchBookmarks rmEmpty 0 "SYNOLOGY" 20 sStaleSyn).1 = some [bSyn] ∧
    (searchBookmarks rmEmpty 0 "synology" 20 sStaleSyn).1 = some [] := by
  decide

/-- C7 (amended): search matching is case-insensitive — two queries equal
up to letter case, neither of which has a query-cache entry, return
identical result sequences against the same snapshot and remote state
(only the cache keys they write differ). -/
theorem claim_C7 (rm : Remote) (now : Int) (q1 q2 : String) (limit : Nat)
    (s : ClientState) (hlow : pyLower q1 = pyLower q2)
    (h1 : qcLookup s.queryCache (searchKey q1 limit) = none)
    (h2 : qcLookup s.queryCache (searchKey q2 limit) = none) :
    (searchBookmarks rm now q1 limit s).1 = (searchBookmarks rm now q2 limit s).1 := by
  unfold searchBookmarks
  rw [h1, h2]
  dsimp only
  rw [hlow]
  exact searchMiss_key_irrel rm now (pyLower q2) (searchKey q1 limit)
    (searchKey q2 limit) limit s

/-- C7 witness: `search("SYNOLOGY")` and `search("synology")` agree on a
cache-clean state. -/
theorem claim_C7_witness :
    (searchBookmarks rmEmpty 0 "SYNOLOGY" 20 sValidEmpty).1 =
      (searchBookmarks rmEmpty 0 "synology" 20 sValidEmpty).1 :=
  claim_C7 rmEmpty 0 "SYNOLOGY" "synology" 20 sValidEmpty (by decide) (by decide)
    (by decide)

theorem searchKey_inj {q1 q2 : String} {limit : Nat}
    (h : searchKey q1 limit = searchKey q2 limit) : q1 = q2 := by
  unfold searchKey at h
  have hd := congrArg String.data h
  simp only [String.data_append, List.append_assoc, List.append_cancel_left_eq,
    List.append_cancel_right_eq] at hd
  cases q1 with
  | mk d1 =>
    cases q2 with
    | mk d2 => exact congrArg String.mk hd

/-- C9: the `search` query cache is keyed by the raw query string
(`search:{query}:{limit}`): two queries that differ only in letter case
have distinct cache keys, never share a cache entry (running one leaves the
other's key still uncached, so each call performs its own scan), and yet —
matching being driven by the lowered query — their results are equal. -/
theorem claim_C9 (rm : Remote) (now : Int) (q1 q2 : String) (limit : Nat)
    (s : ClientState) (hlow : pyLower q1 = pyLower q2) (hne : q1 ≠ q2)
    (h1 : qcLookup s.queryCache (searchKey q1 limit) = none)
    (h2 : qcLookup s.queryCache (searchKey q2 limit) = none) :
    searchKey q1 limit ≠ searchKey q2 limit ∧
    qcLookup (searchBookmarks rm now q1 limit s).2.1.queryCache
      (searchKey q2 limit) = none ∧
    (searchBookmarks rm now q1 limit s).1 = (searchBookmarks rm now q2 limit s).1 := by
  have hkeys : searchKey q1 limit ≠ searchKey q2 limit :=
    fun hk => hne (searchKey_inj hk)
  refine ⟨hkeys, ?_, ?_⟩
  · unfold searchBookmarks
    rw [h1]
    dsimp only
    rcases searchMiss_queryCache rm now (pyLower q1) (searchKey q1 limit) limit s with
      ⟨-, hq⟩ | ⟨v, -, hq⟩
    · rw [hq]; exact h2
    · rw [hq]
      exact qcLookup_insert_of_none (searchKey q1 limit) v h2 hkeys
  · unfold searchBookmarks
    rw [h1, h2]
    dsimp only
    rw [hlow]
    exact searchMiss_key_irrel rm now (pyLower q2) (searchKey q1 limit)
      (searchKey q2 limit) limit s

/-- C9 witness: `FOO` and `foo` have distinct cache keys, the second stays
uncached after the first call, and the two results agree. -/
theorem claim_C9_witness :
    searchKey "FOO" 20 ≠ searchKey "foo" 20 ∧
    qcLookup (searchBookmarks rmEmpty 0 "FOO" 20 sValidEmpty).2.1.queryCache
      (searchKey "foo" 20) = none ∧
    (searchBookmarks rmEmpty 0 "FOO" 20 sValidEmpty).1 =
      (searchBookmarks rmEmpty 0 "foo" 20 sValidEmpty).1 :=
  claim_C9 rmEmpty 0 "FOO" "foo" 20 sValidEmpty (by decide) (by decide) (by decide)
    (by decide)

/-- C10: each query operation writes its query-cache entry only after all
fetching and filtering has succeeded — when a mandatory snapshot refresh or
remote fetch raises, the exception propagates to the caller (the operation
returns the error) and the query-result cache is left exactly as it was. -/
theorem claim_C10 (rm : Remote) (now : Int) (q : String) (d limit : Nat)
    (tags : List String) (fromD toD : Option Int) (s : ClientState) :
    ((searchBookmarks rm now q limit s).1 = none →
      (searchBookmarks rm now q limit s).2.1.queryCache = s.queryCache) ∧
    ((searchBookmarksExtended rm now q d limit s).1 = none →
      (searchBookmarksExtended rm now q d limit s).2.1.queryCache = s.queryCache) ∧
    ((getRecentBookmarks rm now d limit s).1 = none →
      (getRecentBookmarks rm now d limit s).2.1.queryCache = s.queryCache) ∧
    ((getBookmarksByTags rm now tags fromD toD limit s).1 = none →
      (getBookmarksByTags rm now tags fromD toD limit s).2.1.queryCache =
        s.queryCache) :=
  ⟨searchBookmarks_fail_queryCache rm now q limit s,
   searchBookmarksExtended_fail_queryCache rm now q d limit s,
   getRecentBookmarks_fail_queryCache rm now d limit s,
   getBookmarksByTags_fail_queryCache rm now tags fromD toD limit s⟩

/-- C10 witness: against a fully failing remote, each of the four
operations raises and leaves the (fresh) query cache unchanged. -/
theorem claim_C10_witness :
    (searchBookmarks rmDown 0 "q" 20 freshState).1 = none ∧
    (searchBookmarks rmDown 0 "q" 20 freshState).2.1.queryCache =
      freshState.queryCache ∧
    (searchBookmarksExtended rmDown 0 "q" 365 20 freshState).1 = none ∧
    (searchBookmarksExtended rmDown 0 "q" 365 20 freshState).2.1.queryCache =
      freshState.queryCache ∧
    (getRecentBookmarks rmDown 0 365 20 freshState).1 = none ∧
    (getRecentBookmarks rmDown 0 365 20 freshState).2.1.queryCache =
      freshState.queryCache ∧
    (getBookmarksByTags rmDown 0 ["x"] none none 20 freshState).1 = none ∧
    (getBookmarksByTags rmDown 0 ["x"] none none 20 freshState).2.1.queryCache =
      freshState.queryCache :=
  ⟨by decide,
   (claim_C10 rmDown 0 "q" 365 20 ["x"] none none freshState).1 (by decide),
   by decide,
   (claim_C10 rmDown 0 "q" 365 20 ["x"] none none freshState).2.1 (by decide),
   by decide,
   (claim_C10 rmDown 0 "q" 365 20 ["x"] none none freshState).2.2.1 (by decide),
   by decide,
   (claim_C10 rmDown 0 "q" 365 20 ["x"] none none freshState).2.2.2 (by decide)⟩

/-! ### Reachability of `QCInv`: every operation preserves it, and it holds
in the fresh state — so the sortedness hypothesis of the C5 theorem is
satisfied in every reachable client state. -/

theorem searchKey_not_extPfx (q : String) (l : Nat) :
    strHasPfx "extended_search:" (searchKey q l) = false := by
  have hdata : (searchKey q l).data =
      's' :: 'e' :: 'a' :: 'r' :: 'c' :: 'h' :: ':' :: (q.data ++ ':' :: (toString l).data) := by
    simp [searchKey, String.data_append]
  rw [strHasPfx, hdata]
  rfl

theorem searchKey_not_tagsPfx (q : String) (l : Nat) :
    strHasPfx "tags:" (searchKey q l) = false := by
  have hdata : (searchKey q l).data =
      's' :: 'e' :: 'a' :: 'r' :: 'c' :: 'h' :: ':' :: (q.data ++ ':' :: (toString l).data) := by
    simp [searchKey, String.data_append]
  rw [strHasPfx, hdata]
  rfl

theorem QCInv_of_queryCache_eq {s s' : ClientState} (h : QCInv s)
    (he : s'.queryCache = s.queryCache) : QCInv s' := by
  intro e hmem hp
  rw [he] at hmem
  exact h e hmem hp

theorem qcInsert_pfxSorted (qc : List (String × List Bookmark)) (k : String)
    (v : List Bookmark)
    (hqc : ∀ e ∈ qc,
      (strHasPfx "extended_search:" e.1 = true ∨ strHasPfx "tags:" e.1 = true) →
      SortedDesc e.2)
    (hk : (strHasPfx "extended_search:" k = true ∨ strHasPfx "tags:" k = true) →
      SortedDesc v) :
    ∀ e ∈ qcInsert qc k v,
      (strHasPfx "extended_search:" e.1 = true ∨ strHasPfx "tags:" e.1 = true) →
      SortedDesc e.2 := by
  intro e he hp
  have he2 : e ∈ (k, v) :: qc.filter (fun p => !(p.1 == k)) :=
    List.take_subset 1000 _ (by rwa [qcInsert] at he)
  rcases List.mem_cons.mp he2 with rfl | he3
  · exact hk hp
  · exact hqc e (List.mem_of_mem_filter he3) hp

theorem searchBookmarks_queryCache_shape (rm : Remote) (now : Int) (q : String)
    (limit : Nat) (s : ClientState) :
    (searchBookmarks rm now q limit s).2.1.queryCache = s.queryCache ∨
    ∃ v, (searchBookmarks rm now q limit s).2.1.queryCache =
      qcInsert s.queryCache (searchKey q limit) v := by
  unfold searchBookmarks
  cases hl : qcLookup s.queryCache (searchKey q limit) with
  | some v => exact Or.inl rfl
  | none =>
    dsimp only
    rcases searchMiss_queryCache rm now (pyLower q) (searchKey q limit) limit s with
      ⟨-, hq⟩ | ⟨v, -, hq⟩
    · exact Or.inl hq
    · exact Or.inr ⟨v, hq⟩

theorem searchBookmarksExtended_queryCache_shape (rm : Remote) (now : Int)
    (q : String) (d limit : Nat) (s : ClientState) :
    (searchBookmarksExtended rm now q d limit s).2.1.queryCache = s.queryCache ∨
    ∃ v, SortedDesc v ∧
      (searchBookmarksExtended rm now q d limit s).2.1.queryCache =
        qcInsert s.queryCache (extKey q d limit) v := by
  unfold searchBookmarksExtended
  cases hl : qcLookup s.queryCache (extKey q d limit) with
  | some v => exact Or.inl rfl
  | none =>
    dsimp only
    rcases hT : getAllTags rm s with ⟨r1, s1, t1⟩
    have hq1 : s1.queryCache = s.queryCache := by
      have := (getAllTags_state rm s).1
      rwa [hT] at this
    cases r1 with
    | none => exact Or.inl hq1
    | some tcs =>
      dsimp only
      rcases hD :
        (match (tcs.find? (fun (tc : TagCount) => pyLower tc.tag == pyLower q)).map
            (fun (tc : TagCount) => tc.tag) with
         | none => (([] : List Bookmark), ([] : List RCall))
         | some t =>
           match searchByTagDirect rm t [] none none limit with
           | (none, tr) => ([], tr)
           | (some m, tr) => (m, tr)) with ⟨m0, t2⟩
      rw [hD]
      dsimp only
      by_cases hif : m0.isEmpty = true
      · rw [if_pos hif]
        cases hA : rm.allFrom (now - (d : Int) * 86400) with
        | none => exact Or.inl hq1
        | some posts =>
          exact Or.inr ⟨sortDesc (extGo (pyLower q) limit posts []),
            sortedDesc_sortDesc _, by simp [hq1]⟩
      · rw [if_neg hif]
        exact Or.inr ⟨sortDesc m0, sortedDesc_sortDesc _, by simp [hq1]⟩

theorem getRecentBookmarks_queryCache_shape (rm : Remote) (now : Int)
    (days limit : Nat) (s : ClientState) :
    (getRecentBookmarks rm now days limit s).2.1.queryCache = s.queryCache ∨
    ∃ v, SortedDesc v ∧
      (getRecentBookmarks rm now days limit s).2.1.queryCache =
        qcInsert s.queryCache (recentKey days limit) v := by
  unfold getRecentBookmarks
  cases hl : qcLookup s.queryCache (recentKey days limit) with
  | some v => exact Or.inl rfl
  | none =>
    dsimp only
    rcases hG : getAllBookmarks rm now false s with ⟨r1, s1, t1⟩
    have hq1 : s1.queryCache = s.queryCache := by
      have := getAllBookmarks_queryCache rm now false s
      rwa [hG] at this
    cases r1 with
    | none => exact Or.inl hq1
    | some bl =>
      exact Or.inr ⟨(sortDesc (bl.filter
          (fun b => decide (now - (days : Int) * 86400 ≤ b.savedAt)))).take limit,
        sortedDesc_take (sortedDesc_sortDesc _) limit, by simp [hq1]⟩

theorem getBookmarksByTags_queryCache_shape (rm : Remote) (now : Int)
    (tags : List String) (fromD toD : Option Int) (limit : Nat) (s : ClientState) :
    (getBookmarksByTags rm now tags fromD toD limit s).2.1.queryCache =
      s.queryCache ∨
    ∃ v, SortedDesc v ∧
      (getBookmarksByTags rm now tags fromD toD limit s).2.1.queryCache =
        qcInsert s.queryCache (tagsKey tags fromD toD limit) v := by
  unfold getBookmarksByTags
  cases hl : qcLookup s.queryCache (tagsKey tags fromD toD limit) with
  | some v => exact Or.inl rfl
  | none =>
    dsimp only
    rcases hG : getAllBookmarks rm now false s with ⟨r1, s1, t1⟩
    have hq1 : s1.queryCache = s.queryCache := by
      have := getAllBookmarks_queryCache rm now false s
      rwa [hG] at this
    cases r1 with
    | none => exact Or.inl hq1
    | some bl =>
      rcases hD :
        (match byTagsGo tags fromD toD limit bl [], tags with
         | [], [t] =>
           (match searchByTagDirect rm t [] fromD toD limit with
            | (none, tr) => (([] : List Bookmark), tr)
            | (some m, tr) => (m, tr))
         | m0, _ => (m0, ([] : List RCall))) with ⟨m1, t2⟩
      dsimp only
      rw [hD]
      exact Or.inr ⟨sortDesc m1, sortedDesc_sortDesc _, by simp [hq1]⟩

theorem runOp_QCInv (rm : Remote) (now : Int) (op : QOp) (s : ClientState)
    (h : QCInv s) : QCInv (runOp rm now op s).2.1 := by
  cases op with
  | search q limit =>
    show QCInv (searchBookmarks rm now q limit s).2.1
    rcases searchBookmarks_queryCache_shape rm now q limit s with hq | ⟨v, hq⟩
    · exact QCInv_of_queryCache_eq h hq
    · intro e he hp
      rw [hq] at he
      refine qcInsert_pfxSorted s.queryCache (searchKey q limit) v h ?_ e he hp
      intro hpk
      rcases hpk with h1 | h1
      · rw [searchKey_not_extPfx] at h1
        exact Bool.noConfusion h1
      · rw [searchKey_not_tagsPfx] at h1
        exact Bool.noConfusion h1
  | searchExt q d limit =>
    show QCInv (searchBookmarksExtended rm now q d limit s).2.1
    rcases searchBookmarksExtended_queryCache_shape rm now q d limit s with
      hq | ⟨v, hs, hq⟩
    · exact QCInv_of_queryCache_eq h hq
    · intro e he hp
      rw [hq] at he
      exact qcInsert_pfxSorted s.queryCache (extKey q d limit) v h (fun _ => hs) e he hp
  | recent d limit =>
    show QCInv (getRecentBookmarks rm now d limit s).2.1
    rcases getRecentBookmarks_queryCache_shape rm now d limit s with hq | ⟨v, hs, hq⟩
    · exact QCInv_of_queryCache_eq h hq
    · intro e he hp
      rw [hq] at he
      exact qcInsert_pfxSorted s.queryCache (recentKey d limit) v h (fun _ => hs) e he hp
  | byTags tags f t limit =>
    show QCInv (getBookmarksByTags rm now tags f t limit s).2.1
    rcases getBookmarksByTags_queryCache_shape rm now tags f t limit s with
      hq | ⟨v, hs, hq⟩
    · exact QCInv_of_queryCache_eq h hq
    · intro e he hp
      rw [hq] at he
      exact qcInsert_pfxSorted s.queryCache (tagsKey tags f t limit) v h
        (fun _ => hs) e he hp

theorem QCInv_freshState : QCInv freshState := by
  intro e he
  simp [freshState] at he

theorem runSeq_QCInv (rm : Remote) (seq : List (Int × QOp)) (s : ClientState)
    (h : QCInv s) : QCInv (runSeq rm seq s) := by
  induction seq generalizing s with
  | nil => exact h
  | cons p rest ih =>
    rcases p with ⟨now, op⟩
    exact ih (runOp rm now op s).2.1 (runOp_QCInv rm now op s h)

end Pinboard
